import Mathlib

/-
Verification of the streaming tool-call orchestration engine of the
llm-chatapp repository. The definitions below are shallow embeddings of
the Python source under src/backend: the fragment decoder loop of
process_chat_message (app.py), the multi-server tool connection manager
(mcp_client.py), and the turn orchestration loop (app.py). External
effects (subprocess connections, tool execution) are passed in as
explicit environment functions.
-/

namespace ChatApp

/-- Fragment types of the model backend stream, exactly the chunk type
strings handled by the decoder loop in process_chat_message
(src/backend/app.py, lines 181-194). -/
inductive Chunk where
  | content (s : String)
  | tool_call_id (s : String)
  | tool_name (s : String)
  | tool_args (s : String)
deriving DecidableEq, Repr

/-- Accumulator for one tool call, mirroring the dict current_tool with
keys id, name, arguments in app.py line 173. -/
structure CurrentTool where
  id : Option String
  name : Option String
  arguments : String
deriving DecidableEq, Repr

/-- State of the decoder loop in process_chat_message: the lists
content_chunks and tool_calls plus the open accumulator current_tool
(app.py lines 171-173). -/
structure DecodeState where
  content_chunks : List String
  tool_calls : List CurrentTool
  current_tool : CurrentTool
deriving DecidableEq, Repr

/-- Initial accumulator: id None, name None, arguments empty. -/
def initCurrentTool : CurrentTool := ⟨none, none, ""⟩

/-- Initial decoder state at the start of one turn. -/
def initDecodeState : DecodeState := ⟨[], [], initCurrentTool⟩

/-- Python truthiness of the accumulator name: app.py lines 185 and 197
test the name with `if current_tool["name"]:`, which is false both for
None and for the empty string. -/
def truthy : Option String → Bool
  | none => false
  | some s => s ≠ ""

/-- One step of the decoder loop, the body of the async for over chunks
in app.py lines 176-194. Note that a tool_args chunk is written with
plain assignment to the arguments field, as in app.py line 194, and that
the boundary check on a tool_call_id chunk is the Python truthiness of
the name (app.py line 185). -/
def decodeStep (st : DecodeState) : Chunk → DecodeState
  | Chunk.content s => { st with content_chunks := st.content_chunks ++ [s] }
  | Chunk.tool_call_id s =>
      { st with
        tool_calls :=
          if truthy st.current_tool.name then st.tool_calls ++ [st.current_tool]
          else st.tool_calls,
        current_tool := ⟨some s, none, ""⟩ }
  | Chunk.tool_name s =>
      { st with current_tool := { st.current_tool with name := some s } }
  | Chunk.tool_args s =>
      { st with current_tool := { st.current_tool with arguments := s } }

/-- Run the decoder loop over a whole fragment stream. -/
def decodeRun (st : DecodeState) (cs : List Chunk) : DecodeState :=
  cs.foldl decodeStep st

/-- Stream-end finalization: app.py lines 197-199 append the open
accumulator when its name is truthy in the Python sense (not None and
not the empty string). -/
def finalize_tool_calls (st : DecodeState) : List CurrentTool :=
  if truthy st.current_tool.name then st.tool_calls ++ [st.current_tool]
  else st.tool_calls

/-- Result of decoding one turn: the forwarded content chunks and the
completed tool call records. -/
structure TurnDecode where
  content_chunks : List String
  tool_calls : List CurrentTool
deriving DecidableEq, Repr

/-- Decode a whole fragment stream for one turn, including stream-end
finalization (app.py lines 171-199). -/
def decodeTurn (cs : List Chunk) : TurnDecode :=
  let st := decodeRun initDecodeState cs
  ⟨st.content_chunks, finalize_tool_calls st⟩

/-- Insertion into an association list with Python dict semantics: an
existing key is overwritten in place, a new key is appended. -/
def dictInsert (k : String) (v : α) : List (String × α) → List (String × α)
  | [] => [(k, v)]
  | (k2, v2) :: rest =>
      if k2 = k then (k, v) :: rest else (k2, v2) :: dictInsert k v rest

/-- Lookup in an association list modelling a Python dict. -/
def dictLookup (k : String) : List (String × α) → Option α
  | [] => none
  | (k2, v2) :: rest => if k2 = k then some v2 else dictLookup k rest

/-- Qualified tool name construction, make_prefixed_tool_name in
src/backend/mcp_client.py lines 17-19. -/
def make_prefixed_tool_name (server_id : String) (tool_name : String) : String :=
  server_id ++ "_" ++ tool_name

/-- A tool as declared by an MCP server in the list_tools response
(name, description, inputSchema). -/
structure ToolDecl where
  name : String
  description : String
  inputSchema : String
deriving DecidableEq, Repr

/-- A cached tool descriptor entry as built in MCPClient.connect,
mcp_client.py lines 56-64: name is the prefixed name, and the original
server-side name is kept in original_name. -/
structure ToolEntry where
  name : String
  description : String
  input_schema : String
  original_name : String
deriving DecidableEq, Repr

/-- Build the cached descriptor for one declared tool of a server,
mirroring the dict comprehension in MCPClient.connect. -/
def mkToolEntry (server_id : String) (t : ToolDecl) : ToolEntry :=
  ⟨make_prefixed_tool_name server_id t.name, t.description, t.inputSchema, t.name⟩

/-- One tool server client. The tools field is the cached _tools list of
MCPClient: none before a successful connect, some entries after. -/
structure MCPClient where
  server_id : String
  tools : Option (List ToolEntry)
deriving DecidableEq, Repr

/-- MCPClient.list_tools, mcp_client.py lines 67-71: raises a
RuntimeError when _tools is still None. -/
def MCPClient.list_tools (c : MCPClient) : Except String (List ToolEntry) :=
  match c.tools with
  | none => Except.error "Client not connected to server"
  | some ts => Except.ok ts

/-- Environment describing the external subprocess servers: for a server
id, none means connect raises a connection error, some decls means the
handshake succeeds and list_tools returns decls. -/
def Env : Type := String → Option (List ToolDecl)

/-- Outcome of one connect attempt on a client (the body of
MCPClient.connect): on success the cached _tools list is populated with
prefixed entries, on failure the client is left unconnected. -/
def connectClient (env : Env) (c : MCPClient) : MCPClient :=
  match env c.server_id with
  | none => c
  | some decls => { c with tools := some (decls.map (mkToolEntry c.server_id)) }

/-- The manager owning all clients, its prefixed-name routing dict
_tool_mapping, and the _connected flag (mcp_client.py lines 98-113). -/
structure MCPClientManager where
  clients : List MCPClient
  tool_mapping : List (String × (String × String))
  connected : Bool
deriving DecidableEq, Repr

/-- Fresh manager built from the configured server ids, mirroring
MCPClientManager.__init__: one unconnected client per server id, empty
mapping, not connected. -/
def mkManager (ids : List String) : MCPClientManager :=
  ⟨ids.map (fun i => ⟨i, none⟩), [], false⟩

/-- The loop body of connect_all (mcp_client.py lines 136-153): each
client is attempted in order; on failure the exception is logged and the
loop continues; on success the cached tools are added to the mapping.
Returns the updated clients, the updated mapping, and the trace of
attempted server ids. -/
def connectAllGo (env : Env) :
    List MCPClient → List (String × (String × String)) →
    List MCPClient × List (String × (String × String)) × List String
  | [], mp => ([], mp, [])
  | c :: rest, mp =>
      match env c.server_id with
      | none =>
          let r := connectAllGo env rest mp
          (c :: r.1, r.2.1, c.server_id :: r.2.2)
      | some decls =>
          let entries := decls.map (mkToolEntry c.server_id)
          let mp2 := entries.foldl
            (fun acc e => dictInsert e.name (c.server_id, e.original_name) acc) mp
          let r := connectAllGo env rest mp2
          ({ c with tools := some entries } :: r.1, r.2.1, c.server_id :: r.2.2)

/-- MCPClientManager.connect_all, mcp_client.py lines 131-155: returns
immediately when already connected, otherwise attempts every client and
finally sets the connected flag. The second component is the trace of
attempted server ids. -/
def connect_all (env : Env) (m : MCPClientManager) :
    MCPClientManager × List String :=
  if m.connected then (m, [])
  else
    let g := connectAllGo env m.clients m.tool_mapping
    (⟨g.1, g.2.1, true⟩, g.2.2)

/-- MCPClientManager.list_all_tools, mcp_client.py lines 157-173: raises
when not connected, otherwise extends over every client, skipping those
whose own list_tools raises (the unconnected ones). -/
def list_all_tools (m : MCPClientManager) : Except String (List ToolEntry) :=
  if m.connected = false then
    Except.error "Clients are not connected. Call connect_all() first."
  else
    Except.ok (m.clients.foldl
      (fun acc c => match c.tools with
        | none => acc
        | some ts => acc ++ ts) [])

/-- External tool execution: given server id, original tool name and
argument text, the tool either returns a result payload or fails. -/
def Exec : Type := String → String → String → Except String String

/-- MCPClientManager.call_tool, mcp_client.py lines 175-198, with an
execution trace: raises when not connected, raises the unknown-tool
ValueError when the prefixed name is absent from _tool_mapping, and
otherwise delegates to the owning client. The trace records the
delegated (server_id, original_name, args) when a delegation happens. -/
def call_tool_traced (m : MCPClientManager) (exec : Exec)
    (tool_name args : String) :
    Except String String × List (String × String × String) :=
  if m.connected = false then
    (Except.error "Clients are not connected. Call connect_all() first.", [])
  else
    match dictLookup tool_name m.tool_mapping with
    | none => (Except.error ("Unknown tool: " ++ tool_name), [])
    | some p => (exec p.1 p.2 args, [(p.1, p.2, args)])

/-- Result value of MCPClientManager.call_tool alone. -/
def call_tool (m : MCPClientManager) (exec : Exec)
    (tool_name args : String) : Except String String :=
  (call_tool_traced m exec tool_name args).1

/-- One entry of a batch call, the dicts passed to
MCPClientManager.call_tools. -/
structure ToolCallSpec where
  tool_name : String
  tool_args : String
deriving DecidableEq, Repr

/-- One per-call entry of the call_tools result list: either a result
payload or a caught error string, keyed by the prefixed tool name. -/
inductive CallResult where
  | ok (tool_name : String) (result : String)
  | err (tool_name : String) (error : String)
deriving DecidableEq, Repr

/-- The prefixed tool name carried by a batch result entry. -/
def CallResult.toolName : CallResult → String
  | CallResult.ok n _ => n
  | CallResult.err n _ => n

/-- The loop body of MCPClientManager.call_tools (mcp_client.py lines
219-228): each call is tried in order; errors are caught per call and
turned into an error entry without aborting the batch. -/
def call_tools_go (m : MCPClientManager) (exec : Exec) :
    List ToolCallSpec → List CallResult × List (String × String × String)
  | [] => ([], [])
  | c :: rest =>
      let r := call_tool_traced m exec c.tool_name c.tool_args
      let entry := match r.1 with
        | Except.ok res => CallResult.ok c.tool_name res
        | Except.error e => CallResult.err c.tool_name e
      let tailr := call_tools_go m exec rest
      (entry :: tailr.1, r.2 ++ tailr.2)

/-- MCPClientManager.call_tools, mcp_client.py lines 200-228: raises
when not connected, otherwise collects one result-or-error entry per
call, together with the execution trace. -/
def call_tools (m : MCPClientManager) (exec : Exec)
    (calls : List ToolCallSpec) :
    Except String (List CallResult) × List (String × String × String) :=
  if m.connected = false then
    (Except.error "Clients are not connected. Call connect_all() first.", [])
  else
    let p := call_tools_go m exec calls
    (Except.ok p.1, p.2)

/-- Triples (prefixed name, server id, original name) contributed to the
routing dict by one client during connect_all: empty when its connect
fails, one triple per cached entry when it succeeds. -/
def clientContribution (env : Env) (c : MCPClient) :
    List (String × String × String) :=
  match env c.server_id with
  | none => []
  | some decls =>
      (decls.map (mkToolEntry c.server_id)).map
        (fun e => (e.name, c.server_id, e.original_name))

/-- All triples contributed to the routing dict by a client list during
connect_all, in connection order. -/
def contributed (env : Env) : List MCPClient → List (String × String × String)
  | [] => []
  | c :: rest => clientContribution env c ++ contributed env rest

/-- Insert a list of (name, server, original) triples into a routing
dict in order, with dict overwrite semantics. -/
def insertAllTriples (ts : List (String × String × String))
    (mp : List (String × (String × String))) :
    List (String × (String × String)) :=
  ts.foldl (fun acc t => dictInsert t.1 (t.2.1, t.2.2) acc) mp

/-- The union of cached descriptors that connect_all leaves behind for a
given environment and configured id list: the tools of exactly the
successfully connected servers, in configuration order. -/
def expectedTools (env : Env) : List String → List ToolEntry
  | [] => []
  | i :: rest =>
      (match env i with
        | none => []
        | some decls => decls.map (mkToolEntry i)) ++ expectedTools env rest

/-- A conversation message. Covers the shapes appended by the turn loop
in app.py: user and assistant messages with content, assistant messages
carrying tool_calls (app.py lines 207-218), and tool result messages
with the tool name and originating call id. -/
structure Message where
  role : String
  content : String
  name : Option String
  msg_tool_call_id : Option String
  tool_calls : List CurrentTool
deriving DecidableEq, Repr

/-- Per-call outcome entry of a batch, computed independently of the
other calls of the batch. -/
def call_entry (m : MCPClientManager) (exec : Exec) (c : ToolCallSpec) :
    CallResult :=
  match call_tool m exec c.tool_name c.tool_args with
  | Except.ok res => CallResult.ok c.tool_name res
  | Except.error e => CallResult.err c.tool_name e

/-- Per-call execution trace of a batch entry. -/
def call_trace (m : MCPClientManager) (exec : Exec) (c : ToolCallSpec) :
    List (String × String × String) :=
  (call_tool_traced m exec c.tool_name c.tool_args).2

/-- Concatenated execution traces of a batch, in batch order. -/
def call_traces (m : MCPClientManager) (exec : Exec) :
    List ToolCallSpec → List (String × String × String)
  | [] => []
  | c :: rest => call_trace m exec c ++ call_traces m exec rest

/-- Batch call spec built from one decoded tool call record, passing the
raw accumulated argument text through. -/
def spec_of (c : CurrentTool) : ToolCallSpec :=
  ⟨c.name.getD "", c.arguments⟩

/-- Tool role message built from one decoded call and its batch result:
the result payload, or the caught error string, becomes the content. -/
def resultMessage (c : CurrentTool) (r : CallResult) : Message :=
  match r with
  | CallResult.ok n res => ⟨"tool", res, some n, c.id, []⟩
  | CallResult.err n e => ⟨"tool", e, some n, c.id, []⟩

/-- Modelled from the spec: ChatSession.process_tool_calls is imported
by app.py from the llm_client module but its definition is not present
in the source tree. Per spec section 4.4 step 5 it executes the decoded
tool calls through the Connection Manager batch call, in order, and
yields one tool role message per result, substituting the error string
as content for a failed call. -/
def process_tool_calls (m : MCPClientManager) (exec : Exec)
    (calls : List CurrentTool) :
    List Message × List (String × String × String) :=
  let r := call_tools m exec (calls.map spec_of)
  match r.1 with
  | Except.ok results =>
      ((calls.zip results).map (fun p => resultMessage p.1 p.2), r.2)
  | Except.error _ => ([], r.2)

/-- The assistant message carrying the decoded tool call records,
app.py lines 207-218. -/
def assistantToolCallMessage (content : String) (calls : List CurrentTool) :
    Message :=
  ⟨"assistant", content, none, none, calls⟩

/-- The final assistant message appended after the loop,
app.py lines 238-244. -/
def finalAssistantMessage (content : String) : Message :=
  ⟨"assistant", content, none, none, []⟩

/-- Result of one iteration of the while loop of process_chat_message:
the turn content, the decoded calls, the message list after the
iteration, the execution trace, and whether the loop continues (false
at either break: no tool calls, or no tool messages). -/
structure TurnResult where
  content : String
  tool_calls : List CurrentTool
  messages : List Message
  executed : List (String × String × String)
  continues : Bool
deriving Repr

/-- One iteration of the while loop of process_chat_message, app.py
lines 162-235: decode the fragment stream; with no tool calls, break;
otherwise append the assistant tool-call message, run the tool calls,
and append the tool messages (breaking when there are none). -/
def runTurn (m : MCPClientManager) (exec : Exec) (hist : List Message)
    (cs : List Chunk) : TurnResult :=
  let d := decodeTurn cs
  let content := String.join d.content_chunks
  if d.tool_calls.isEmpty then
    ⟨content, d.tool_calls, hist, [], false⟩
  else
    let am := assistantToolCallMessage content d.tool_calls
    let p := process_tool_calls m exec d.tool_calls
    if p.1.isEmpty then
      ⟨content, d.tool_calls, hist ++ [am], p.2, false⟩
    else
      ⟨content, d.tool_calls, hist ++ [am] ++ p.1, p.2, true⟩

/-- Result of the whole loop: how many backend requests were issued,
the final message list, and the concatenated execution trace. -/
structure LoopResult where
  requests : Nat
  messages : List Message
  executed : List (String × String × String)
deriving Repr

/-- The while loop of process_chat_message over the successive backend
responses, one fragment stream per issued request; on loop exit the
final assistant message with the last turn content is appended (app.py
lines 162-244). -/
def chatLoop (m : MCPClientManager) (exec : Exec) :
    List Message → List (List Chunk) → LoopResult
  | hist, [] => ⟨0, hist, []⟩
  | hist, cs :: rest =>
      let t := runTurn m exec hist cs
      if t.continues then
        let r := chatLoop m exec t.messages rest
        ⟨r.requests + 1, r.messages, t.executed ++ r.executed⟩
      else
        ⟨1, t.messages ++ [finalAssistantMessage t.content], t.executed⟩

/-- Tool role message produced for one decoded call when batch outcomes
are computed per call. -/
def tool_message_of (m : MCPClientManager) (exec : Exec) (c : CurrentTool) :
    Message :=
  resultMessage c (call_entry m exec (spec_of c))

/-- Test environment: server a offers one tool x, every other server
fails to connect. -/
def envA : Env := fun s => if s = "a" then some [⟨"x", "dx", "sx"⟩] else none

/-- Test environment: server a offers tool x_y and every other server,
in particular a_x, fails to connect. -/
def envOverlap : Env := fun s =>
  if s = "a" then some [⟨"x_y", "d", "s"⟩] else none

/-- Test environment where two connected servers produce the same
qualified name: a with tool x_y and a_x with tool y. -/
def envCollide : Env := fun s =>
  if s = "a" then some [⟨"x_y", "d", "s"⟩]
  else if s = "a_x" then some [⟨"y", "d", "s"⟩] else none

/-- Test execution environment where every delegated call returns r. -/
def execAll : Exec := fun _ _ _ => Except.ok "r"

/-- Manager connected against envA with the single server a. -/
def mgrA : MCPClientManager := (connect_all envA (mkManager ["a"])).1

/-- Fragment stream with two tool calls, the second naming an unknown
tool. -/
def csW : List Chunk :=
  [Chunk.tool_call_id "1", Chunk.tool_name "a_x", Chunk.tool_args "\x7b\x7d",
   Chunk.tool_call_id "2", Chunk.tool_name "nope", Chunk.tool_args "\x7b\x7d"]

/-- Fragment stream with two known tool calls in order. -/
def csXY : List Chunk :=
  [Chunk.tool_call_id "1", Chunk.tool_name "a_x", Chunk.tool_args "\x7b\x7d",
   Chunk.tool_call_id "2", Chunk.tool_name "a_x", Chunk.tool_args "\x7b\x7d"]

lemma dictLookup_insert_self (k : String) (v : α)
    (l : List (String × α)) : dictLookup k (dictInsert k v l) = some v := by
  induction l with
  | nil => simp [dictInsert, dictLookup]
  | cons h t ih =>
      by_cases hk : h.1 = k
      · simp [dictInsert, hk, dictLookup]
      · simp [dictInsert, hk, dictLookup, ih]

lemma dictLookup_insert_ne (k k2 : String) (v : α) (l : List (String × α))
    (h : k2 ≠ k) : dictLookup k (dictInsert k2 v l) = dictLookup k l := by
  induction l with
  | nil => simp [dictInsert, dictLookup, h]
  | cons hd t ih =>
      by_cases hk : hd.1 = k2
      · simp [dictInsert, hk, dictLookup, h]
      · by_cases hk2 : hd.1 = k
        · simp [dictInsert, hk, dictLookup, hk2, Ne.symm h]
        · simp [dictInsert, hk, dictLookup, hk2, ih]

lemma insertAllTriples_cons (t : String × String × String)
    (ts : List (String × String × String))
    (mp : List (String × (String × String))) :
    insertAllTriples (t :: ts) mp
      = insertAllTriples ts (dictInsert t.1 (t.2.1, t.2.2) mp) := rfl

lemma insertAllTriples_not_mem (k : String)
    (ts : List (String × String × String))
    (mp : List (String × (String × String)))
    (h : k ∉ ts.map (fun t => t.1)) :
    dictLookup k (insertAllTriples ts mp) = dictLookup k mp := by
  induction ts generalizing mp with
  | nil => rfl
  | cons t rest ih =>
      have h1 : t.1 ≠ k := by
        intro he
        exact h (by simp [he])
      have h2 : k ∉ rest.map (fun t => t.1) := by
        intro hm
        exact h (by simp [hm])
      rw [insertAllTriples_cons, ih _ h2, dictLookup_insert_ne _ _ _ _ h1]

lemma insertAllTriples_mem_nodup (k s o : String)
    (ts : List (String × String × String))
    (mp : List (String × (String × String)))
    (hnd : (ts.map (fun t => t.1)).Nodup)
    (hmem : (k, s, o) ∈ ts) :
    dictLookup k (insertAllTriples ts mp) = some (s, o) := by
  induction ts generalizing mp with
  | nil => cases hmem
  | cons t rest ih =>
      rcases List.mem_cons.mp hmem with he | hm
      · have hk : k ∉ rest.map (fun t => t.1) := by
          have := (List.nodup_cons.mp hnd).1
          simpa [← he] using this
        rw [insertAllTriples_cons, insertAllTriples_not_mem _ _ _ hk, ← he,
          dictLookup_insert_self]
      · rw [insertAllTriples_cons]
        exact ih _ (List.nodup_cons.mp hnd).2 hm


lemma truthy_some_ne (nm : String) (h : nm ≠ "") :
    truthy (some nm) = true := by
  simp [truthy, h]

lemma decodeRun_content_only (cs : List Chunk) (st : DecodeState)
    (h : ∀ c ∈ cs, ∃ s, c = Chunk.content s) :
    (decodeRun st cs).tool_calls = st.tool_calls ∧
    (decodeRun st cs).current_tool = st.current_tool := by
  induction cs generalizing st with
  | nil => exact ⟨rfl, rfl⟩
  | cons c rest ih =>
      obtain ⟨s, hs⟩ := h c (List.mem_cons_self c rest)
      subst hs
      have := ih (decodeStep st (Chunk.content s))
        (fun c hc => h c (List.mem_cons_of_mem _ hc))
      simpa [decodeRun, decodeStep] using this

lemma decodeTurn_content_only (cs : List Chunk)
    (h : ∀ c ∈ cs, ∃ s, c = Chunk.content s) :
    (decodeTurn cs).tool_calls = [] := by
  have h2 := decodeRun_content_only cs initDecodeState h
  show finalize_tool_calls (decodeRun initDecodeState cs) = []
  rw [finalize_tool_calls, h2.1, h2.2]
  rfl

lemma connectAllGo_clients (env : Env) (cs : List MCPClient)
    (mp : List (String × (String × String))) :
    (connectAllGo env cs mp).1 = cs.map (connectClient env) := by
  induction cs generalizing mp with
  | nil => rfl
  | cons c rest ih =>
      cases he : env c.server_id with
      | none => simp [connectAllGo, he, ih, connectClient]
      | some decls => simp [connectAllGo, he, ih, connectClient]

lemma connectAllGo_attempts (env : Env) (cs : List MCPClient)
    (mp : List (String × (String × String))) :
    (connectAllGo env cs mp).2.2 = cs.map (fun c => c.server_id) := by
  induction cs generalizing mp with
  | nil => rfl
  | cons c rest ih =>
      cases he : env c.server_id with
      | none => simp [connectAllGo, he, ih]
      | some decls => simp [connectAllGo, he, ih]

lemma insertAllTriples_append (a b : List (String × String × String))
    (mp : List (String × (String × String))) :
    insertAllTriples (a ++ b) mp = insertAllTriples b (insertAllTriples a mp) := by
  simp [insertAllTriples, List.foldl_append]

lemma connectAllGo_mapping (env : Env) (cs : List MCPClient)
    (mp : List (String × (String × String))) :
    (connectAllGo env cs mp).2.1 = insertAllTriples (contributed env cs) mp := by
  induction cs generalizing mp with
  | nil => rfl
  | cons c rest ih =>
      cases he : env c.server_id with
      | none =>
          simp [connectAllGo, he, ih, contributed, clientContribution,
            insertAllTriples_append]
      | some decls =>
          simp only [connectAllGo, he, contributed]
          rw [insertAllTriples_append, ih]
          congr 1
          simp [clientContribution, he, insertAllTriples, List.foldl_map]

/-- The descriptor lists cached by a client list, in order, skipping
unconnected clients. -/
def clientsTools : List MCPClient → List ToolEntry
  | [] => []
  | c :: rest =>
      (match c.tools with
        | none => []
        | some ts => ts) ++ clientsTools rest

lemma foldl_gather (l : List MCPClient) (acc : List ToolEntry) :
    l.foldl (fun acc c => match c.tools with
      | none => acc
      | some ts => acc ++ ts) acc = acc ++ clientsTools l := by
  induction l generalizing acc with
  | nil => simp [clientsTools]
  | cons c rest ih =>
      cases hc : c.tools with
      | none => simp [clientsTools, hc, ih]
      | some ts => simp [clientsTools, hc, ih]

lemma clientsTools_connect (env : Env) : ∀ ids : List String,
    clientsTools ((ids.map (fun i => (⟨i, none⟩ : MCPClient))).map
      (connectClient env)) = expectedTools env ids
  | [] => rfl
  | i :: rest => by
      have ih := clientsTools_connect env rest
      simp only [List.map_cons, clientsTools]
      rw [ih]
      cases he : env i with
      | none => simp only [expectedTools, he, connectClient]
      | some decls => simp only [expectedTools, he, connectClient]

lemma map_server_id : ∀ ids : List String,
    ((ids.map (fun i => (⟨i, none⟩ : MCPClient))).map
      (fun c => c.server_id)) = ids
  | [] => rfl
  | i :: rest => by
      simp only [List.map_cons]
      rw [map_server_id rest]

lemma connect_all_clients (env : Env) (ids : List String) :
    (connect_all env (mkManager ids)).1.clients
      = (ids.map (fun i => (⟨i, none⟩ : MCPClient))).map (connectClient env) :=
  connectAllGo_clients env (mkManager ids).clients []

lemma connect_all_attempts (env : Env) (ids : List String) :
    (connect_all env (mkManager ids)).2 = ids :=
  (connectAllGo_attempts env (mkManager ids).clients []).trans
    (map_server_id ids)

lemma connect_all_mapping (env : Env) (ids : List String) :
    (connect_all env (mkManager ids)).1.tool_mapping
      = insertAllTriples (contributed env (mkManager ids).clients) [] :=
  connectAllGo_mapping env (mkManager ids).clients []

lemma connect_all_connected (env : Env) (ids : List String) :
    (connect_all env (mkManager ids)).1.connected = true := rfl

lemma list_all_tools_connected (m : MCPClientManager)
    (h : m.connected = true) :
    list_all_tools m = Except.ok (m.clients.foldl
      (fun acc c => match c.tools with
        | none => acc
        | some ts => acc ++ ts) []) := by
  simp [list_all_tools, h]

lemma list_all_tools_connect_all (env : Env) (ids : List String) :
    list_all_tools (connect_all env (mkManager ids)).1
      = Except.ok (expectedTools env ids) := by
  rw [list_all_tools_connected _ (connect_all_connected env ids),
    connect_all_clients, foldl_gather, clientsTools_connect]
  rfl

lemma expectedTools_prefixed (env : Env) (ids : List String) :
    ∀ e ∈ expectedTools env ids,
      ∃ sid, e.name = make_prefixed_tool_name sid e.original_name := by
  induction ids with
  | nil => intro e he; cases he
  | cons i rest ih =>
      intro e he
      rw [expectedTools] at he
      rcases List.mem_append.mp he with hl | hr
      · cases henv : env i with
        | none => rw [henv] at hl; cases hl
        | some decls =>
            rw [henv] at hl
            obtain ⟨d, _, hd⟩ := List.mem_map.mp hl
            exact ⟨i, by rw [← hd]; rfl⟩
      · exact ih e hr

lemma call_tools_go_eq (m : MCPClientManager) (exec : Exec) :
    ∀ calls : List ToolCallSpec,
      call_tools_go m exec calls
        = (calls.map (call_entry m exec), call_traces m exec calls)
  | [] => rfl
  | c :: rest => by
      simp only [call_tools_go, call_tools_go_eq m exec rest, List.map_cons,
        call_traces]
      rfl

lemma zip_map_apply (g : α → β) (f : β → γ) (h : α → γ → δ) :
    ∀ l : List α,
      ((l.zip ((l.map g).map f)).map (fun p => h p.1 p.2))
        = l.map (fun a => h a (f (g a)))
  | [] => rfl
  | a :: rest => by
      simp only [List.map_cons, List.zip_cons_cons]
      rw [zip_map_apply g f h rest]

lemma call_tools_connected (m : MCPClientManager) (exec : Exec)
    (calls : List ToolCallSpec) (h : m.connected = true) :
    call_tools m exec calls
      = (Except.ok (calls.map (call_entry m exec)), call_traces m exec calls) := by
  simp [call_tools, h, call_tools_go_eq]

lemma process_tool_calls_eq (m : MCPClientManager) (exec : Exec)
    (calls : List CurrentTool) (h : m.connected = true) :
    process_tool_calls m exec calls
      = (calls.map (tool_message_of m exec),
         call_traces m exec (calls.map spec_of)) := by
  rw [process_tool_calls, call_tools_connected m exec _ h]
  simp only
  rw [zip_map_apply spec_of (call_entry m exec)
    (fun c r => resultMessage c r) calls]
  rfl

lemma runTurn_no_tools (m : MCPClientManager) (exec : Exec)
    (hist : List Message) (cs : List Chunk)
    (h : (decodeTurn cs).tool_calls = []) :
    runTurn m exec hist cs
      = ⟨String.join (decodeTurn cs).content_chunks, (decodeTurn cs).tool_calls,
         hist, [], false⟩ := by
  simp [runTurn, h]

lemma runTurn_with_tools (m : MCPClientManager) (exec : Exec)
    (hist : List Message) (cs : List Chunk) (hconn : m.connected = true)
    (hne : (decodeTurn cs).tool_calls ≠ []) :
    runTurn m exec hist cs
      = ⟨String.join (decodeTurn cs).content_chunks, (decodeTurn cs).tool_calls,
         hist ++ [assistantToolCallMessage
             (String.join (decodeTurn cs).content_chunks)
             (decodeTurn cs).tool_calls]
           ++ ((decodeTurn cs).tool_calls).map (tool_message_of m exec),
         call_traces m exec (((decodeTurn cs).tool_calls).map spec_of),
         true⟩ := by
  have hempty : (decodeTurn cs).tool_calls.isEmpty = false :=
    List.isEmpty_eq_false.mpr hne
  have hmsg : ((decodeTurn cs).tool_calls).map (tool_message_of m exec) ≠ [] := by
    intro hcontra
    exact hne (List.map_eq_nil_iff.mp hcontra)
  have hmsgempty : (((decodeTurn cs).tool_calls).map
      (tool_message_of m exec)).isEmpty = false :=
    List.isEmpty_eq_false.mpr hmsg
  rw [runTurn]
  simp only [hempty, Bool.false_eq_true, if_false,
    process_tool_calls_eq m exec _ hconn, hmsgempty]

lemma chatLoop_requests_pos (m : MCPClientManager) (exec : Exec)
    (hist : List Message) (cs : List Chunk) (rest : List (List Chunk)) :
    1 ≤ (chatLoop m exec hist (cs :: rest)).requests := by
  rw [chatLoop]
  by_cases h : (runTurn m exec hist cs).continues
  · simp [h]
  · simp [h]

lemma chatLoop_continue (m : MCPClientManager) (exec : Exec)
    (hist : List Message) (cs : List Chunk) (rest : List (List Chunk))
    (h : (runTurn m exec hist cs).continues = true) :
    (chatLoop m exec hist (cs :: rest)).requests
      = (chatLoop m exec (runTurn m exec hist cs).messages rest).requests + 1 := by
  simp only [chatLoop, h, if_true]

lemma getElem_append_cons (l1 : List α) (x : α) (l2 : List α) (i : Nat) :
    (l1 ++ x :: l2)[l1.length + 1 + i]? = l2[i]? := by
  have h1 : l1.length ≤ l1.length + 1 + i := by omega
  rw [List.getElem?_append_right h1]
  have h2 : l1.length + 1 + i - l1.length = i + 1 := by omega
  rw [h2, List.getElem?_cons_succ]

/-- C1 (code divergence): the decoder loop stores a tool_args fragment by
plain assignment (app.py line 194), so a call whose argument text arrives
in two fragments keeps only the second fragment, not the concatenation of
the fragments in arrival order required by the claim. -/
theorem tool_args_fragment_overwrites :
    (decodeTurn [Chunk.tool_call_id "c1", Chunk.tool_name "fs_list_dir",
        Chunk.tool_args "\x7b\"path\":", Chunk.tool_args "\"/tmp\"\x7d"]).tool_calls
      = [⟨some "c1", some "fs_list_dir", "\"/tmp\"\x7d"⟩] ∧
    ("\"/tmp\"\x7d" : String) ≠ "\x7b\"path\":" ++ "\"/tmp\"\x7d" :=
  ⟨rfl, by decide⟩

/-- C3: the decoder finalizes tool calls only at the two specified
boundaries. When a call-id fragment arrives while the open accumulator
has a truthy (non-None, nonempty) name, the step appends that
accumulator exactly once to the completed list and opens a fresh
accumulator carrying the new id with empty name and arguments; stream-end
finalization appends the open named accumulator exactly once; and no
other step emits: content, name and argument fragments leave the
completed list unchanged, as do a call-id fragment and stream-end
finalization when no truthy-named call is open. -/
theorem decoder_finalizes_at_boundaries (st : DecodeState) (nm c : String)
    (h : st.current_tool.name = some nm) (hnm : nm ≠ "") :
    decodeStep st (Chunk.tool_call_id c)
      = { st with tool_calls := st.tool_calls ++ [st.current_tool],
                  current_tool := ⟨some c, none, ""⟩ } ∧
    finalize_tool_calls st = st.tool_calls ++ [st.current_tool] ∧
    (∀ s, (decodeStep st (Chunk.content s)).tool_calls = st.tool_calls) ∧
    (∀ s, (decodeStep st (Chunk.tool_name s)).tool_calls = st.tool_calls) ∧
    (∀ s, (decodeStep st (Chunk.tool_args s)).tool_calls = st.tool_calls) ∧
    (∀ st2 : DecodeState, truthy st2.current_tool.name = false →
        (∀ c2, (decodeStep st2 (Chunk.tool_call_id c2)).tool_calls
            = st2.tool_calls) ∧
        finalize_tool_calls st2 = st2.tool_calls) := by
  refine ⟨?_, ?_, fun s => rfl, fun s => rfl, fun s => rfl, ?_⟩
  · simp [decodeStep, h, truthy_some_ne nm hnm]
  · simp [finalize_tool_calls, h, truthy_some_ne nm hnm]
  · intro st2 h2
    exact ⟨fun c2 => by simp [decodeStep, h2],
      by simp [finalize_tool_calls, h2]⟩

/-- Witness for C3 at a concrete state with an open truthy-named call. -/
theorem decoder_finalizes_at_boundaries_witness :
    decodeStep ⟨["x"], [], ⟨some "c1", some "t", "a"⟩⟩ (Chunk.tool_call_id "c2")
      = ⟨["x"], [⟨some "c1", some "t", "a"⟩], ⟨some "c2", none, ""⟩⟩ ∧
    finalize_tool_calls ⟨["x"], [], ⟨some "c1", some "t", "a"⟩⟩
      = [⟨some "c1", some "t", "a"⟩] ∧
    (∀ s, (decodeStep ⟨["x"], [], ⟨some "c1", some "t", "a"⟩⟩
        (Chunk.content s)).tool_calls = []) ∧
    (∀ s, (decodeStep ⟨["x"], [], ⟨some "c1", some "t", "a"⟩⟩
        (Chunk.tool_name s)).tool_calls = []) ∧
    (∀ s, (decodeStep ⟨["x"], [], ⟨some "c1", some "t", "a"⟩⟩
        (Chunk.tool_args s)).tool_calls = []) ∧
    (∀ st2 : DecodeState, truthy st2.current_tool.name = false →
        (∀ c2, (decodeStep st2 (Chunk.tool_call_id c2)).tool_calls
            = st2.tool_calls) ∧
        finalize_tool_calls st2 = st2.tool_calls) :=
  decoder_finalizes_at_boundaries ⟨["x"], [], ⟨some "c1", some "t", "a"⟩⟩
    "t" "c2" rfl (by decide)

/-- C8 counterexample: a name fragment with no preceding call-id fragment
is accepted by the decoder, which never raises a malformed-stream error:
the stream consisting of one name fragment decodes without failure to one
completed record whose id is none, refuting the claim that the turn fails
rather than accepting the fragment. -/
theorem orphan_name_fragment_not_rejected :
    (decodeTurn [Chunk.tool_name "t"]).tool_calls
      = [⟨none, some "t", ""⟩] := rfl

/-- C8 (amended): on a name fragment the decoder unconditionally attaches
the name to the current accumulator, even when no call-id fragment has
been seen, leaving the id field none; no error path exists. -/
theorem decoder_accepts_orphan_name (st : DecodeState) (n : String) :
    decodeStep st (Chunk.tool_name n)
      = { st with current_tool := { st.current_tool with name := some n } } :=
  rfl

/-- C10: connect_all is idempotent. On a manager whose connected flag is
already set, connect_all returns the manager unchanged and attempts no
connection, leaving clients, tool mapping and connected flag intact. -/
theorem connect_all_idempotent (env : Env) (m : MCPClientManager)
    (h : m.connected = true) :
    connect_all env m = (m, []) := by
  simp [connect_all, h]

/-- Witness for C10 on a concretely connected manager. -/
theorem connect_all_idempotent_witness :
    connect_all envA ((connect_all envA (mkManager ["a", "b"])).1)
      = ((connect_all envA (mkManager ["a", "b"])).1, []) :=
  connect_all_idempotent envA _ rfl

/-- C2 counterexample: servers a (connects, offering tool x_y) and a_x
(fails to connect) are configured. The name qualified by the failed
server a_x for its tool y is the string a_x_y, which coincides with the
successful qualified name of server a. call_tool on that failed-server
name is routed to server a and returns ok, not the unknown-tool error
the claim requires for every failed-server-qualified name. -/
theorem failed_server_name_collision_routed :
    envOverlap "a_x" = none ∧
    make_prefixed_tool_name "a_x" "y" = make_prefixed_tool_name "a" "x_y" ∧
    call_tool (connect_all envOverlap (mkManager ["a", "a_x"])).1 execAll
        (make_prefixed_tool_name "a_x" "y") "args" = Except.ok "r" ∧
    (Except.ok "r" : Except String String)
      ≠ Except.error ("Unknown tool: " ++ make_prefixed_tool_name "a_x" "y") :=
  ⟨rfl, rfl, rfl, fun h => Except.noConfusion h⟩

/-- C2 (amended): connect_all attempts every configured server in order
regardless of individual failures, never raises, and marks the manager
ready; afterwards list_all_tools returns exactly the successful servers
tools; and call_tool on a name qualified by a failed server fails with
the unknown-tool error, not a connection error, provided that name does
not coincide with a qualified name contributed by a successfully
connected server (a collision is instead routed to the successful
server, as the counterexample shows). -/
theorem connect_all_partial_failure (env : Env) (ids : List String)
    (exec : Exec) (f t args : String) (_hf : env f = none)
    (hnc : make_prefixed_tool_name f t ∉
      (contributed env (mkManager ids).clients).map (fun x => x.1)) :
    (connect_all env (mkManager ids)).2 = ids ∧
    (connect_all env (mkManager ids)).1.connected = true ∧
    list_all_tools (connect_all env (mkManager ids)).1
      = Except.ok (expectedTools env ids) ∧
    call_tool (connect_all env (mkManager ids)).1 exec
        (make_prefixed_tool_name f t) args
      = Except.error ("Unknown tool: " ++ make_prefixed_tool_name f t) := by
  refine ⟨connect_all_attempts env ids, connect_all_connected env ids,
    list_all_tools_connect_all env ids, ?_⟩
  have hlk : dictLookup (make_prefixed_tool_name f t)
      ((connect_all env (mkManager ids)).1.tool_mapping) = none := by
    rw [connect_all_mapping, insertAllTriples_not_mem _ _ _ hnc]
    rfl
  simp [call_tool, call_tool_traced, connect_all_connected env ids, hlk]

/-- Witness for C2 at the environment envA where server a connects with
tool x and server b fails. -/
theorem connect_all_partial_failure_witness :
    (connect_all envA (mkManager ["a", "b"])).2 = ["a", "b"] ∧
    (connect_all envA (mkManager ["a", "b"])).1.connected = true ∧
    list_all_tools (connect_all envA (mkManager ["a", "b"])).1
      = Except.ok (expectedTools envA ["a", "b"]) ∧
    call_tool (connect_all envA (mkManager ["a", "b"])).1 execAll
        (make_prefixed_tool_name "b" "t1") ""
      = Except.error ("Unknown tool: " ++ make_prefixed_tool_name "b" "t1") :=
  connect_all_partial_failure envA ["a", "b"] execAll "b" "t1" "" rfl
    (by decide)

/-- C5 counterexample: with servers a (tool x_y) and a_x (tool y) both
connected, the two qualified names coincide as the string a_x_y; the
later connection overwrites the earlier entry in the routing dict, so
looking up the qualified name of (a, x_y) yields (a_x, y), not (a, x_y),
refuting global uniqueness and the never-overwrite clause. -/
theorem qualified_name_collision_overwrites :
    make_prefixed_tool_name "a" "x_y" = make_prefixed_tool_name "a_x" "y" ∧
    dictLookup (make_prefixed_tool_name "a" "x_y")
        (connect_all envCollide (mkManager ["a", "a_x"])).1.tool_mapping
      = some ("a_x", "y") ∧
    (some (("a_x", "y") : String × String)) ≠ some ("a", "x_y") :=
  ⟨rfl, rfl, by decide⟩

/-- C5 (amended): the qualified name is deterministically the server id,
an underscore, and the original name; and when the qualified names
contributed by the connected servers are pairwise distinct, looking the
qualified name of (s, t) up in the routing mapping yields back exactly
(s, t). When two servers qualified names collide, the entry of the later
connected server overwrites the earlier one, contrary to the claim. -/
theorem make_prefixed_roundtrip (env : Env) (ids : List String)
    (hnd : ((contributed env (mkManager ids).clients).map
      (fun x => x.1)).Nodup)
    (s t : String)
    (hmem : (make_prefixed_tool_name s t, s, t)
      ∈ contributed env (mkManager ids).clients) :
    make_prefixed_tool_name s t = s ++ "_" ++ t ∧
    dictLookup (make_prefixed_tool_name s t)
        (connect_all env (mkManager ids)).1.tool_mapping = some (s, t) := by
  refine ⟨rfl, ?_⟩
  rw [connect_all_mapping]
  exact insertAllTriples_mem_nodup (make_prefixed_tool_name s t) s t _ []
    hnd hmem

/-- Witness for C5 amended at envA with the single server a and tool x. -/
theorem make_prefixed_roundtrip_witness :
    make_prefixed_tool_name "a" "x" = "a" ++ "_" ++ "x" ∧
    dictLookup (make_prefixed_tool_name "a" "x")
        (connect_all envA (mkManager ["a"])).1.tool_mapping
      = some ("a", "x") :=
  make_prefixed_roundtrip envA ["a"] (by decide) "a" "x" (by decide)

/-- C9: API misuse preconditions. list_tools on a client before a
successful connect raises the not-connected error; list_all_tools and
call_tool on a manager before connect_all raise the not-ready error; and
after connect_all, list_all_tools returns the union of the connected
servers cached descriptors, each name carrying its owning server prefix. -/
theorem api_misuse_preconditions :
    (∀ c : MCPClient, c.tools = none →
        c.list_tools = Except.error "Client not connected to server") ∧
    (∀ m : MCPClientManager, m.connected = false →
        list_all_tools m
          = Except.error "Clients are not connected. Call connect_all() first." ∧
        ∀ (exec : Exec) (nm args : String),
          call_tool m exec nm args
            = Except.error
                "Clients are not connected. Call connect_all() first.") ∧
    (∀ (env : Env) (ids : List String),
        list_all_tools (connect_all env (mkManager ids)).1
          = Except.ok (expectedTools env ids) ∧
        ∀ e ∈ expectedTools env ids,
          ∃ sid, e.name = make_prefixed_tool_name sid e.original_name) := by
  refine ⟨?_, ?_, ?_⟩
  · intro c h
    simp [MCPClient.list_tools, h]
  · intro m h
    constructor
    · simp [list_all_tools, h]
    · intro exec nm args
      simp [call_tool, call_tool_traced, h]
  · intro env ids
    exact ⟨list_all_tools_connect_all env ids, expectedTools_prefixed env ids⟩

/-- Witness for C9 at concrete unconnected and connected states. -/
theorem api_misuse_preconditions_witness :
    MCPClient.list_tools ⟨"a", none⟩
      = Except.error "Client not connected to server" ∧
    list_all_tools (mkManager ["a"])
      = Except.error "Clients are not connected. Call connect_all() first." ∧
    call_tool (mkManager ["a"]) execAll "a_x" ""
      = Except.error "Clients are not connected. Call connect_all() first." ∧
    list_all_tools (connect_all envA (mkManager ["a"])).1
      = Except.ok (expectedTools envA ["a"]) :=
  ⟨api_misuse_preconditions.1 ⟨"a", none⟩ rfl,
   (api_misuse_preconditions.2.1 (mkManager ["a"]) rfl).1,
   (api_misuse_preconditions.2.1 (mkManager ["a"]) rfl).2 execAll "a_x" "",
   (api_misuse_preconditions.2.2 envA ["a"]).1⟩

/-- C4: failure isolation in a multi-call batch. Under a connected
manager, the tool messages of a turn are the independent per-call
outcomes, one message per decoded call; a call whose execution fails has
its error string substituted as the message content; and the turn is not
aborted: the loop continues and the next request history carries the
assistant message followed by every result-or-error message. -/
theorem tool_error_isolation (m : MCPClientManager) (exec : Exec)
    (hconn : m.connected = true) (hist : List Message) (cs : List Chunk)
    (hne : (decodeTurn cs).tool_calls ≠ []) :
    (process_tool_calls m exec (decodeTurn cs).tool_calls).1
      = ((decodeTurn cs).tool_calls).map (tool_message_of m exec) ∧
    (∀ c : CurrentTool, ∀ e : String,
        call_tool m exec (c.name.getD "") c.arguments = Except.error e →
        tool_message_of m exec c
          = ⟨"tool", e, some (c.name.getD ""), c.id, []⟩) ∧
    (runTurn m exec hist cs).continues = true ∧
    (runTurn m exec hist cs).messages
      = hist ++ [assistantToolCallMessage
            (String.join (decodeTurn cs).content_chunks)
            (decodeTurn cs).tool_calls]
          ++ ((decodeTurn cs).tool_calls).map (tool_message_of m exec) := by
  refine ⟨?_, ?_, ?_, ?_⟩
  · rw [process_tool_calls_eq m exec _ hconn]
  · intro c e he
    simp only [tool_message_of, call_entry, spec_of]
    rw [he]
    rfl
  · rw [runTurn_with_tools m exec hist cs hconn hne]
  · rw [runTurn_with_tools m exec hist cs hconn hne]

/-- Witness for C4: a two-call batch against mgrA where the first call
resolves to the known tool a_x and the second names an unknown tool. -/
theorem tool_error_isolation_witness :
    (process_tool_calls mgrA execAll (decodeTurn csW).tool_calls).1
      = ((decodeTurn csW).tool_calls).map (tool_message_of mgrA execAll) ∧
    (∀ c : CurrentTool, ∀ e : String,
        call_tool mgrA execAll (c.name.getD "") c.arguments = Except.error e →
        tool_message_of mgrA execAll c
          = ⟨"tool", e, some (c.name.getD ""), c.id, []⟩) ∧
    (runTurn mgrA execAll [] csW).continues = true ∧
    (runTurn mgrA execAll [] csW).messages
      = [] ++ [assistantToolCallMessage
            (String.join (decodeTurn csW).content_chunks)
            (decodeTurn csW).tool_calls]
          ++ ((decodeTurn csW).tool_calls).map (tool_message_of mgrA execAll) :=
  tool_error_isolation mgrA execAll rfl [] csW (by decide)

/-- C6: call-order preservation. Under a connected manager, the turn
executes the decoded calls in decode order (the execution trace is the
in-order concatenation of the per-call delegations), the history after
the turn is the prior history, the assistant message, then one tool
message per decoded call in the same order, and the message at offset i
past the assistant message is exactly the message of call i, so for
i smaller than j the message of call i sits strictly before that of
call j. -/
theorem tool_call_order_preserved (m : MCPClientManager) (exec : Exec)
    (hconn : m.connected = true) (hist : List Message) (cs : List Chunk)
    (hne : (decodeTurn cs).tool_calls ≠ []) :
    (runTurn m exec hist cs).executed
      = call_traces m exec (((decodeTurn cs).tool_calls).map spec_of) ∧
    (runTurn m exec hist cs).messages
      = hist ++ [assistantToolCallMessage
            (String.join (decodeTurn cs).content_chunks)
            (decodeTurn cs).tool_calls]
          ++ ((decodeTurn cs).tool_calls).map (tool_message_of m exec) ∧
    (∀ i : Nat,
      ((runTurn m exec hist cs).messages)[hist.length + 1 + i]?
        = (((decodeTurn cs).tool_calls).map (tool_message_of m exec))[i]?) := by
  have ht := runTurn_with_tools m exec hist cs hconn hne
  refine ⟨by rw [ht], by rw [ht], ?_⟩
  intro i
  rw [ht]
  show ((hist ++ [assistantToolCallMessage
      (String.join (decodeTurn cs).content_chunks)
      (decodeTurn cs).tool_calls])
    ++ ((decodeTurn cs).tool_calls).map (tool_message_of m exec))[
        hist.length + 1 + i]? = _
  rw [List.append_assoc, List.singleton_append]
  exact getElem_append_cons hist _ _ i

/-- Witness for C6: a turn with two known calls against mgrA. -/
theorem tool_call_order_preserved_witness :
    (runTurn mgrA execAll [] csXY).executed
      = call_traces mgrA execAll (((decodeTurn csXY).tool_calls).map spec_of) ∧
    (runTurn mgrA execAll [] csXY).messages
      = [] ++ [assistantToolCallMessage
            (String.join (decodeTurn csXY).content_chunks)
            (decodeTurn csXY).tool_calls]
          ++ ((decodeTurn csXY).tool_calls).map (tool_message_of mgrA execAll) ∧
    (∀ i : Nat,
      ((runTurn mgrA execAll [] csXY).messages)[
          ([] : List Message).length + 1 + i]?
        = (((decodeTurn csXY).tool_calls).map
            (tool_message_of mgrA execAll))[i]?) :=
  tool_call_order_preserved mgrA execAll rfl [] csXY (by decide)

/-- C7: the only terminal condition of the orchestrator loop is a turn
with zero tool calls. A turn whose stream holds only content fragments
issues exactly one backend request, executes no tool, and leaves the
remaining streams unconsumed; a turn whose stream decodes to at least
one tool call continues the loop, so at least a second backend request
is issued. -/
theorem turn_loop_terminal_condition (m : MCPClientManager) (exec : Exec)
    (hconn : m.connected = true) :
    (∀ (cs : List Chunk) (hist : List Message) (rest : List (List Chunk)),
        (∀ c ∈ cs, ∃ s, c = Chunk.content s) →
        chatLoop m exec hist (cs :: rest)
          = ⟨1, hist ++ [finalAssistantMessage
              (String.join (decodeTurn cs).content_chunks)], []⟩) ∧
    (∀ (cs : List Chunk) (hist : List Message) (r : List Chunk)
        (rest : List (List Chunk)),
        (decodeTurn cs).tool_calls ≠ [] →
        2 ≤ (chatLoop m exec hist (cs :: r :: rest)).requests) := by
  constructor
  · intro cs hist rest hcont
    have hz := decodeTurn_content_only cs hcont
    simp only [chatLoop]
    rw [runTurn_no_tools m exec hist cs hz]
    simp
  · intro cs hist r rest hne
    have hcont : (runTurn m exec hist cs).continues = true := by
      rw [runTurn_with_tools m exec hist cs hconn hne]
    rw [chatLoop_continue m exec hist cs (r :: rest) hcont]
    have hp := chatLoop_requests_pos m exec
      (runTurn m exec hist cs).messages r rest
    omega

/-- Witness for C7 against mgrA: a content-only stream and a stream with
one tool call. -/
theorem turn_loop_terminal_condition_witness :
    (∀ (cs : List Chunk) (hist : List Message) (rest : List (List Chunk)),
        (∀ c ∈ cs, ∃ s, c = Chunk.content s) →
        chatLoop mgrA execAll hist (cs :: rest)
          = ⟨1, hist ++ [finalAssistantMessage
              (String.join (decodeTurn cs).content_chunks)], []⟩) ∧
    (∀ (cs : List Chunk) (hist : List Message) (r : List Chunk)
        (rest : List (List Chunk)),
        (decodeTurn cs).tool_calls ≠ [] →
        2 ≤ (chatLoop mgrA execAll hist (cs :: r :: rest)).requests) :=
  turn_loop_terminal_condition mgrA execAll rfl
